import Mathlib

/-!
Shallow embedding of the run-polling / retry core of the `azd-multiagent`
repository, translated from `scripts/verify_agent.py` and
`scripts/test_all_agents.py`.

Python strings are modelled as Lean `String`s; the Python string operations
used by the source (`str.lower`, `str.strip`, `str.split`, the `in`
substring test, `str.startswith`) are embedded as executable functions on
`List Char` (`String.data`).  Python floats are modelled as rationals `ℚ`
(the source only multiplies by 1.5 and takes `min`/`max`, so rational
arithmetic mirrors the algebra the spec describes).  Wall-clock time is
modelled logically: each non-terminal poll advances the clock by
`poll_interval` seconds, so the `k`-th status poll of one attempt happens
`k * poll_interval` seconds after the attempt's run was created.
-/

namespace AzdAgent

/-- Embedding of Python `str.lower` on one character: Lean's `Char.toLower`
lowers exactly the basic latin letters `A`-`Z`, which is how the source's
ASCII status tokens and error markers behave under Python `str.lower`. -/
def lowerChar (c : Char) : Char := Char.toLower c

/-- Embedding of Python `str.lower` on the character list of a string. -/
def pyLower (l : List Char) : List Char := l.map lowerChar

/-- Embedding of Python `str.strip()` (drop leading and trailing
whitespace) on the character list of a string. -/
def pyStrip (l : List Char) : List Char :=
  (l.dropWhile Char.isWhitespace).rdropWhile Char.isWhitespace

/-- Embedding of Python `text.split(sep)` for a one-character separator:
the list of (possibly empty) segments between occurrences of `sep`. -/
def splitOnChar (sep : Char) : List Char → List (List Char)
  | [] => [[]]
  | c :: rest =>
    match splitOnChar sep rest with
    | [] => [[]]
    | seg :: segs => if c = sep then [] :: seg :: segs else (c :: seg) :: segs

/-- Embedding of the Python substring test `needle in hay`. -/
def containsSub : List Char → List Char → Bool
  | needle, [] => needle.isEmpty
  | needle, c :: t => needle.isPrefixOf (c :: t) || containsSub needle t

/-- String-level wrapper for the Python substring test `needle in hay`. -/
def strContains (hay needle : String) : Bool := containsSub needle.data hay.data

/-- String-level wrapper for Python `str.lower`. -/
def pyLowerS (s : String) : String := String.mk (pyLower s.data)

/-- String-level wrapper for Python `str.strip()`. -/
def pyStripS (s : String) : String := String.mk (pyStrip s.data)

/-- Embedding of Python `s.startswith(pre)`: `pre` is a prefix of `s`. -/
def pyStartsWith (s pre : String) : Bool := pre.data.isPrefixOf s.data

/-- The segment after the last occurrence of `sep` (Python `text.split(sep)[-1]`;
`splitOnChar` never returns `[]`, so the default is never used). -/
def lastSeg (sep : Char) (l : List Char) : List Char := (splitOnChar sep l).getLastD []

/-- Success statuses (`verify_agent.py` lines 16-19). -/
def SUCCESS_STATUSES : List String := ["succeeded", "completed"]

/-- Terminal failure statuses (`verify_agent.py` lines 21-24). -/
def TERMINAL_FAILURE_STATUSES : List String := ["failed", "canceled"]

/-- All terminal statuses (`verify_agent.py` line 26, the union of the two sets). -/
def TERMINAL_STATUSES : List String := SUCCESS_STATUSES ++ TERMINAL_FAILURE_STATUSES

/-- Embedding of `_normalize_status` (`verify_agent.py` lines 39-46) on a string
input: if the text contains a `.`, keep only the segment after the last `.`
(Python `text.split(".")[-1]`), then strip whitespace and lowercase
(Python `text.strip().lower()`). -/
def normStr (s : String) : String :=
  let text := s.data
  let text2 := if text.contains '.' then lastSeg '.' text else text
  String.mk (pyLower (pyStrip text2))

/-- Embedding of `_normalize_status` (`verify_agent.py` lines 39-46): `None`
maps to `None`, any other value is stringified (modelled as already being a
string) and normalized by `normStr`. -/
def normalize_status : Option String → Option String
  | none => none
  | some s => some (normStr s)

/-- Structured remote error payload as left by `_serialize_error`
(`verify_agent.py` lines 61-79): either a dict with `code`/`message` fields
(absent fields modelled as `""`, matching `error.get(..., "")`), or a plain
stringified payload.  A Python `None` error is modelled as `Option.none`.
An empty Python dict is falsy and short-circuits `_is_retryable_rate_limit`
to `False`; it is modelled as `dictE "" ""`, which also yields `False`
through the marker test, so the observable behaviour agrees. -/
inductive RemoteError where
  | dictE (code : String) (message : String) : RemoteError
  | strE (s : String) : RemoteError
deriving DecidableEq, Repr

/-- Embedding of `_is_retryable_rate_limit` (`verify_agent.py` lines 49-58):
a falsy error (`None`, or an empty string payload) is not retryable; a dict
payload is retryable iff its lowercased `code` contains `"rate_limit"` or its
lowercased `message` contains `"rate limit"`; a non-dict payload uses
`code = ""` and its own lowercased string form as the message. -/
def is_retryable_rate_limit : Option RemoteError → Bool
  | none => false
  | some (.dictE code message) =>
      strContains (pyLowerS code) "rate_limit" || strContains (pyLowerS message) "rate limit"
  | some (.strE s) =>
      if s = "" then false
      else strContains (pyLowerS "") "rate_limit" || strContains (pyLowerS s) "rate limit"

/-- The value of the `current_backoff` variable of `verify_agent` at the start
of retry round `n`: round 0 starts at `max(initial_backoff, poll_interval * 2)`
(`verify_agent.py` line 113) and each retry updates it by
`current_backoff = min(max_backoff, current_backoff * 1.5)` (line 151). -/
def backoffSeq (initial_backoff poll_interval max_backoff : ℚ) : ℕ → ℚ
  | 0 => max initial_backoff (poll_interval * 2)
  | n + 1 => min max_backoff (backoffSeq initial_backoff poll_interval max_backoff n * (3 / 2))

/-- The sleep performed on retry round `n`:
`wait_seconds = min(max_backoff, current_backoff)` (`verify_agent.py` line 145). -/
def sleepSeq (initial_backoff poll_interval max_backoff : ℚ) (n : ℕ) : ℚ :=
  min max_backoff (backoffSeq initial_backoff poll_interval max_backoff n)

/-- One response of the remote `runs.get` call: the raw `status` attribute
(absent attribute modelled as `none`) and the serialized `last_error`. -/
structure RunResult where
  status : Option String
  last_error : Option RemoteError
deriving DecidableEq, Repr

/-- Remote side effects performed by `verify_agent`. The source performs
exactly three kinds of remote mutation — `threads.create` (line 101),
`messages.create` (line 107) and `runs.create` (line 118); it never calls any
delete operation, so the effect alphabet has no delete constructor. -/
inductive Effect where
  | createThread (tid : ℕ) : Effect
  | createMessage (tid : ℕ) : Effect
  | createRun (tid : ℕ) (attempt : ℕ) : Effect
deriving DecidableEq, Repr

/-- Effect classifier: is this a `threads.create` call? -/
def Effect.isCreateThread : Effect → Bool
  | .createThread _ => true
  | _ => false

/-- Effect classifier: is this a `messages.create` call? -/
def Effect.isCreateMessage : Effect → Bool
  | .createMessage _ => true
  | _ => false

/-- Effect classifier: is this a `runs.create` call? -/
def Effect.isCreateRun : Effect → Bool
  | .createRun _ _ => true
  | _ => false

/-- The result dict built by `verify_agent` (lines 136-143 and 155-162):
`thread_id`, `run_id` (modelled as the attempt number of the run that
terminated), normalized `status`, serialized `last_error`, and `succeeded`.
The constant `project_endpoint` field is omitted. -/
structure RunOutcome where
  thread_id : ℕ
  run_id : ℕ
  status : String
  last_error : Option RemoteError
  succeeded : Bool
deriving DecidableEq, Repr

/-- How one `verify_agent` call ends: returning the result dict, raising
`TimeoutError` (line 166, remembering which attempt timed out), or raising
the post-loop `RuntimeError("Exceeded retry attempts ...")` (line 173). -/
inductive ExecResult where
  | outcome (o : RunOutcome) : ExecResult
  | timeoutErr (attempt : ℕ) : ExecResult
  | retriesExhausted : ExecResult
deriving DecidableEq, Repr

/-- Number of status polls one attempt performs before its deadline.  The
poll loop (`verify_agent.py` lines 127-163) checks `time.time() < deadline`
with `deadline = start + timeout`, polls, and sleeps `poll_interval`; in the
logical-clock model the `k`-th poll happens at elapsed time
`k * poll_interval`, so the polls performed are exactly those with
`k * poll_interval < timeout`, i.e. `k < ⌈timeout / poll_interval⌉₊`
(see `numPolls_spec` below for the equivalence, valid for positive
`poll_interval`). -/
def numPolls (poll_interval timeout : ℚ) : ℕ := ⌈timeout / poll_interval⌉₊

/-- The body of the poll loop (`verify_agent.py` lines 127-163) starting at
poll index `i` with `fuel` polls left before the deadline: fetch the run,
normalize its status (`line 129`); a non-terminal (or absent) status keeps
polling; the first terminal status is returned together with the run's
serialized `last_error` (line 134).  Returns `none` when the deadline passes
without a terminal status (the `while/else` timeout branch). -/
def scanFrom (run : ℕ → RunResult) : ℕ → ℕ → Option (String × Option RemoteError)
  | _, 0 => none
  | i, fuel + 1 =>
    match normalize_status (run i).status with
    | some sv =>
        if TERMINAL_STATUSES.contains sv then some (sv, (run i).last_error)
        else scanFrom run (i + 1) fuel
    | none => scanFrom run (i + 1) fuel

/-- The attempt loop of `verify_agent` (`verify_agent.py` lines 116-173),
driven by an environment `env` giving the poll responses of each attempt's
run (`env attempt k` is the `k`-th `runs.get` response for the run created on
attempt number `attempt`; attempts are numbered from 1 as in the source).
Returns how the loop ends together with the list of `runs.create` effects it
performs.  Branches, in source order: the `while attempt <= max_attempts`
guard failing raises the post-loop `RuntimeError` (line 173); a run is
created (line 118); polling past the deadline raises `TimeoutError`
(line 166); a success status returns a succeeded outcome (line 136); a
rate-limited failure with `attempt < max_attempts` sleeps and retries with
the updated backoff (lines 144-154); any other terminal failure returns a
non-succeeded outcome (line 155). -/
def runAttempts (env : ℕ → ℕ → RunResult) (tid : ℕ)
    (poll_interval timeout max_backoff : ℚ) (max_attempts : ℕ)
    (attempt : ℕ) (current_backoff : ℚ) : ExecResult × List Effect :=
  if hguard : max_attempts < attempt then (.retriesExhausted, [])
  else
    match scanFrom (env attempt) 0 (numPolls poll_interval timeout) with
    | none => (.timeoutErr attempt, [.createRun tid attempt])
    | some (sv, lastErr) =>
      if SUCCESS_STATUSES.contains sv then
        (.outcome ⟨tid, attempt, sv, lastErr, true⟩, [.createRun tid attempt])
      else if hretry : is_retryable_rate_limit lastErr = true ∧ attempt < max_attempts then
        let rest := runAttempts env tid poll_interval timeout max_backoff max_attempts
          (attempt + 1) (min max_backoff (current_backoff * (3 / 2)))
        (rest.1, .createRun tid attempt :: rest.2)
      else
        (.outcome ⟨tid, attempt, sv, lastErr, false⟩, [.createRun tid attempt])
termination_by max_attempts + 1 - attempt
decreasing_by
  simp only [not_lt] at hguard
  omega

/-- Embedding of `verify_agent` (`verify_agent.py` lines 82-173) after the
environment/client setup: create one thread (modelled with id 0) and one
message on it, initialize `current_backoff = max(initial_backoff,
poll_interval * 2)` (line 113), then run the attempt loop starting at
attempt 1.  Transport failures of the three create calls are re-raised
unchanged by the source (lines 100-110) and are outside this model, which
makes every remote call succeed with the response provided by `env`. -/
def verify_agent (env : ℕ → ℕ → RunResult)
    (poll_interval timeout : ℚ) (max_attempts : ℕ)
    (initial_backoff max_backoff : ℚ) : ExecResult × List Effect :=
  let tid := 0
  let r := runAttempts env tid poll_interval timeout max_backoff max_attempts 1
    (max initial_backoff (poll_interval * 2))
  (r.1, .createThread tid :: .createMessage tid :: r.2)

/-- Whether one poll response is treated as terminal by the poll loop: an
absent or unrecognized status is not terminal (`status_value in
TERMINAL_STATUSES` is `False` for Python `None` and unknown tokens). -/
def isTerminalPoll (r : RunResult) : Bool :=
  match normalize_status r.status with
  | some sv => TERMINAL_STATUSES.contains sv
  | none => false

/-- Predicate for a line attributable to the agent role
(`test_all_agents.py` line 97): it contains the qualified enum marker
`"MessageRole.AGENT"` or its lowercased form starts with `"[assistant]"`. -/
def is_agent_line (line : String) : Bool :=
  strContains line "MessageRole.AGENT" || pyStartsWith (pyLowerS line) "[assistant]"

/-- Embedding of `_extract_agent_lines` (`test_all_agents.py` lines 94-99):
filter the transcript to agent-role lines, falling back to the whole
transcript when the filter is empty (Python `agent_lines or transcript`). -/
def extract_agent_lines (transcript : List String) : List String :=
  let agent_lines := transcript.filter is_agent_line
  if agent_lines.isEmpty then transcript else agent_lines

/-- The insertion-ordered `agent_env_map` dict of `test_all_agents.py`
(lines 105-110), modelled as an association list. -/
def agent_env_map : List (String × String) :=
  [("priority", "PRIORITY_AGENT_ID"), ("team", "TEAM_AGENT_ID"),
   ("effort", "EFFORT_AGENT_ID"), ("triage", "TRIAGE_AGENT_ID")]

/-- Embedding of `test_agents` (`test_all_agents.py` lines 102-129) on its
success path: for each `(agent_name, env_var)` pair of `agent_env_map`, in
order, resolve the agent id from the environment, run the verification and
fetch that run's transcript (collapsed into `transcriptFor`, since any
raised error aborts the harness and produces no mapping), and append
`(agent_name, extract_agent_lines transcript)` to the insertion-ordered
`outputs` dict.  The second component records the agent ids in invocation
order. -/
def test_agents (envVar : String → String) (transcriptFor : String → List String) :
    List (String × List String) × List String :=
  agent_env_map.foldl
    (fun acc pair =>
      let agent_id := envVar pair.2
      let transcript := transcriptFor agent_id
      (acc.1 ++ [(pair.1, extract_agent_lines transcript)], acc.2 ++ [agent_id]))
    ([], [])

section CharLemmas

theorem toNat_ofNat_valid (n : Nat) (h : n.isValidChar) : (Char.ofNat n).toNat = n := by
  rw [Char.ofNat, dif_pos h]
  rfl

theorem lowerChar_toNat (c : Char) :
    (lowerChar c).toNat = if 65 ≤ c.toNat ∧ c.toNat ≤ 90 then c.toNat + 32 else c.toNat := by
  rw [lowerChar, Char.toLower]
  by_cases h : 65 ≤ c.toNat ∧ c.toNat ≤ 90
  · have hvalid : (c.toNat + 32).isValidChar := by
      exact Or.inl (by omega)
    rw [if_pos ⟨h.1, h.2⟩, if_pos h, toNat_ofNat_valid _ hvalid]
  · rw [if_neg (by exact fun hc => h ⟨hc.1, hc.2⟩), if_neg h]

theorem char_eq_iff_toNat (c d : Char) : c = d ↔ c.toNat = d.toNat := by
  constructor
  · intro h; rw [h]
  · intro h
    exact Char.ext (UInt32.ext h)

theorem lowerChar_idem (c : Char) : lowerChar (lowerChar c) = lowerChar c := by
  rw [char_eq_iff_toNat, lowerChar_toNat, lowerChar_toNat c]
  by_cases h : 65 ≤ c.toNat ∧ c.toNat ≤ 90
  · rw [if_pos h, if_neg (by omega)]
  · rw [if_neg h, if_neg h]

theorem isWhitespace_toNat (c : Char) :
    c.isWhitespace = true ↔ c.toNat = 32 ∨ c.toNat = 9 ∨ c.toNat = 13 ∨ c.toNat = 10 := by
  rw [Char.isWhitespace]
  simp only [Bool.or_eq_true, decide_eq_true_eq]
  rw [char_eq_iff_toNat, char_eq_iff_toNat, char_eq_iff_toNat, char_eq_iff_toNat]
  have h1 : (' ' : Char).toNat = 32 := rfl
  have h2 : ('\t' : Char).toNat = 9 := rfl
  have h3 : ('\r' : Char).toNat = 13 := rfl
  have h4 : ('\n' : Char).toNat = 10 := rfl
  rw [h1, h2, h3, h4]
  tauto

theorem isWhitespace_lowerChar (c : Char) :
    (lowerChar c).isWhitespace = c.isWhitespace := by
  by_cases h : 65 ≤ c.toNat ∧ c.toNat ≤ 90
  · have h1 : (lowerChar c).isWhitespace = false := by
      rw [← Bool.not_eq_true, isWhitespace_toNat, lowerChar_toNat, if_pos h]
      omega
    have h2 : c.isWhitespace = false := by
      rw [← Bool.not_eq_true, isWhitespace_toNat]
      omega
    rw [h1, h2]
  · have : lowerChar c = c := by
      rw [char_eq_iff_toNat, lowerChar_toNat, if_neg h]
    rw [this]

theorem lowerChar_eq_dot_iff (c : Char) : lowerChar c = '.' ↔ c = '.' := by
  rw [char_eq_iff_toNat, char_eq_iff_toNat, lowerChar_toNat]
  have hdot : ('.' : Char).toNat = 46 := rfl
  rw [hdot]
  by_cases h : 65 ≤ c.toNat ∧ c.toNat ≤ 90
  · rw [if_pos h]
    constructor <;> intro hc <;> omega
  · rw [if_neg h]

end CharLemmas

section ListLemmas

theorem pyLower_idem (l : List Char) : pyLower (pyLower l) = pyLower l := by
  simp only [pyLower, List.map_map]
  exact List.map_congr_left (fun c _ => lowerChar_idem c)

theorem pyStrip_sublist (l : List Char) : (pyStrip l).Sublist l := by
  have h1 := List.rdropWhile_prefix Char.isWhitespace (l.dropWhile Char.isWhitespace)
  have h2 : l.dropWhile Char.isWhitespace <:+ l := List.dropWhile_suffix Char.isWhitespace
  exact List.Sublist.trans (List.IsPrefix.sublist h1) (List.IsSuffix.sublist h2)

theorem dropWhile_of_dropWhile_self {p : Char → Bool} {m u : List Char}
    (hm : m.dropWhile p = m) (hu : u <+: m) : u.dropWhile p = u := by
  rw [List.dropWhile_eq_self_iff]
  intro hl
  have hune : u ≠ [] := by
    intro h; rw [h] at hl; simp at hl
  have hmne : m ≠ [] := List.IsPrefix.ne_nil hu hune
  have hhead : u.head hune = m.head hmne := List.IsPrefix.head hu hune
  have hget : u.get ⟨0, hl⟩ = u.head hune := by
    cases u with
    | nil => exact absurd rfl hune
    | cons a t => rfl
  rw [hget, hhead]
  have := List.dropWhile_eq_self_iff.mp hm (by
    cases m with
    | nil => exact absurd rfl hmne
    | cons a t => simp)
  have hgetm : m.get ⟨0, by
      cases m with
      | nil => exact absurd rfl hmne
      | cons a t => simp⟩ = m.head hmne := by
    cases m with
    | nil => exact absurd rfl hmne
    | cons a t => rfl
  rw [hgetm] at this
  exact this

theorem pyStrip_idem (l : List Char) : pyStrip (pyStrip l) = pyStrip l := by
  have h1 : (pyStrip l).dropWhile Char.isWhitespace = pyStrip l :=
    dropWhile_of_dropWhile_self (List.dropWhile_idempotent Char.isWhitespace l)
      (List.rdropWhile_prefix Char.isWhitespace (l.dropWhile Char.isWhitespace))
  show ((pyStrip l).dropWhile Char.isWhitespace).rdropWhile Char.isWhitespace = pyStrip l
  rw [h1]
  show (List.rdropWhile Char.isWhitespace
      (List.dropWhile Char.isWhitespace l)).rdropWhile Char.isWhitespace = pyStrip l
  rw [List.rdropWhile_idempotent]
  exact rfl

theorem dropWhile_pyLower (l : List Char) :
    (pyLower l).dropWhile Char.isWhitespace = pyLower (l.dropWhile Char.isWhitespace) := by
  have hpf : (Char.isWhitespace ∘ lowerChar) = Char.isWhitespace :=
    funext isWhitespace_lowerChar
  simp only [pyLower, List.dropWhile_map, hpf]

theorem rdropWhile_pyLower (l : List Char) :
    (pyLower l).rdropWhile Char.isWhitespace = pyLower (l.rdropWhile Char.isWhitespace) := by
  have hpf : (Char.isWhitespace ∘ lowerChar) = Char.isWhitespace :=
    funext isWhitespace_lowerChar
  simp only [pyLower, List.rdropWhile, ← List.map_reverse, List.dropWhile_map, hpf]

theorem pyStrip_pyLower_comm (l : List Char) :
    pyStrip (pyLower l) = pyLower (pyStrip l) := by
  rw [pyStrip, pyStrip, dropWhile_pyLower, rdropWhile_pyLower]

theorem splitOnChar_ne_nil (sep : Char) (l : List Char) : splitOnChar sep l ≠ [] := by
  cases l with
  | nil => simp [splitOnChar]
  | cons c rest =>
    rw [splitOnChar]
    match h : splitOnChar sep rest with
    | [] => simp
    | seg :: segs =>
      by_cases hc : c = sep
      · simp [hc]
      · simp [hc]

theorem lastSeg_not_mem_sep (sep : Char) (l : List Char) : ∀ c ∈ lastSeg sep l, c ≠ sep := by
  induction l with
  | nil => simp [lastSeg, splitOnChar]
  | cons a rest ih =>
    rw [lastSeg, splitOnChar]
    match h : splitOnChar sep rest with
    | [] => exact absurd h (splitOnChar_ne_nil sep rest)
    | seg :: segs =>
      rw [lastSeg, h] at ih
      dsimp only
      by_cases ha : a = sep
      · rw [if_pos ha, List.getLastD_cons, List.getLastD_cons]
        rw [List.getLastD_cons] at ih
        exact ih
      · rw [if_neg ha]
        cases segs with
        | nil =>
          rw [List.getLastD_cons, List.getLastD_nil] at ih ⊢
          intro c hc
          rcases List.mem_cons.mp hc with hca | hcs
          · rw [hca]; exact ha
          · exact ih c hcs
        | cons s ss =>
          rw [List.getLastD_cons, List.getLastD_cons] at ih ⊢
          exact ih

theorem splitOnChar_of_not_mem (sep : Char) (l : List Char) (h : sep ∉ l) :
    splitOnChar sep l = [l] := by
  induction l with
  | nil => rfl
  | cons a rest ih =>
    have ha : a ≠ sep := fun hc => h (by rw [hc]; exact List.mem_cons_self sep rest)
    have hrest : sep ∉ rest := fun hc => h (List.mem_cons_of_mem a hc)
    rw [splitOnChar, ih hrest]
    dsimp only
    rw [if_neg ha]

theorem containsSub_iff (needle hay : List Char) :
    containsSub needle hay = true ↔ needle <:+: hay := by
  induction hay with
  | nil =>
    rw [containsSub, List.isEmpty_iff, List.infix_nil]
  | cons c t ih =>
    rw [containsSub, Bool.or_eq_true, List.isPrefixOf_iff_prefix, ih, List.infix_cons_iff]

end ListLemmas

section NormalizeLemmas

theorem mem_normStr_ne_dot (s : String) : ∀ c ∈ (normStr s).data, c ≠ '.' := by
  intro c hc hcdot
  have hc2 : c ∈ pyLower (pyStrip
      (if s.data.contains '.' then lastSeg '.' s.data else s.data)) := hc
  rcases List.mem_map.mp hc2 with ⟨d, hd, hdc⟩
  rw [hcdot] at hdc
  have hd_dot : d = '.' := (lowerChar_eq_dot_iff d).mp hdc
  subst hd_dot
  have hmem : '.' ∈ (if s.data.contains '.' then lastSeg '.' s.data else s.data) :=
    (pyStrip_sublist _).subset hd
  by_cases hct : s.data.contains '.' = true
  · rw [if_pos hct] at hmem
    exact lastSeg_not_mem_sep '.' s.data '.' hmem rfl
  · rw [if_neg hct] at hmem
    exact hct (List.elem_iff.mpr hmem)

theorem normStr_idem (s : String) : normStr (normStr s) = normStr s := by
  have hnc : ¬ ((normStr s).data.contains '.' = true) := by
    intro h
    exact mem_normStr_ne_dot s '.' (List.elem_iff.mp h) rfl
  show String.mk (pyLower (pyStrip
      (if (normStr s).data.contains '.' then lastSeg '.' (normStr s).data
       else (normStr s).data))) = normStr s
  rw [if_neg hnc]
  show String.mk (pyLower (pyStrip (pyLower (pyStrip
      (if s.data.contains '.' then lastSeg '.' s.data else s.data))))) = normStr s
  rw [pyStrip_pyLower_comm, pyStrip_idem, pyLower_idem]
  rfl

end NormalizeLemmas

section DriverLemmas

theorem numPolls_spec (p T : ℚ) (hp : 0 < p) (k : ℕ) :
    (k : ℚ) * p < T ↔ k < numPolls p T := by
  rw [numPolls, Nat.lt_ceil, lt_div_iff₀ hp]

theorem isTerminalPoll_some (r : RunResult) (sv : String)
    (heq : normalize_status r.status = some sv) :
    isTerminalPoll r = TERMINAL_STATUSES.contains sv := by
  rw [isTerminalPoll, heq]

theorem scanFrom_eq_none (run : ℕ → RunResult) :
    ∀ fuel i, (∀ k, i ≤ k → k < i + fuel → isTerminalPoll (run k) = false) →
      scanFrom run i fuel = none := by
  intro fuel
  induction fuel with
  | zero => intro i _; rfl
  | succ fuel ih =>
    intro i h
    have hi : isTerminalPoll (run i) = false := h i le_rfl (by omega)
    rw [scanFrom]
    split
    · next sv heq =>
      have hi2 : TERMINAL_STATUSES.contains sv = false := by
        rw [← isTerminalPoll_some (run i) sv heq]
        exact hi
      rw [if_neg (by rw [hi2]; exact Bool.false_ne_true)]
      exact ih (i + 1) (fun k hk1 hk2 => h k (by omega) (by omega))
    · next heq =>
      exact ih (i + 1) (fun k hk1 hk2 => h k (by omega) (by omega))

theorem scanFrom_terminal (run : ℕ → RunResult) :
    ∀ fuel i sv e, scanFrom run i fuel = some (sv, e) →
      TERMINAL_STATUSES.contains sv = true := by
  intro fuel
  induction fuel with
  | zero => intro i sv e h; exact absurd h (by rw [scanFrom]; exact Option.noConfusion)
  | succ fuel ih =>
    intro i sv e h
    rw [scanFrom] at h
    revert h
    split
    · next sv0 heq =>
      by_cases hterm : TERMINAL_STATUSES.contains sv0 = true
      · rw [if_pos hterm]
        intro h
        have := Option.some.inj h
        rw [← (Prod.mk.injEq _ _ _ _).mp this |>.1]
        exact hterm
      · rw [if_neg hterm]
        exact ih (i + 1) sv e
    · next heq =>
      exact ih (i + 1) sv e

theorem terminal_not_success_mem_failure (sv : String)
    (hterm : TERMINAL_STATUSES.contains sv = true)
    (hsucc : SUCCESS_STATUSES.contains sv = false) :
    sv ∈ TERMINAL_FAILURE_STATUSES := by
  have hmem : sv ∈ TERMINAL_STATUSES := List.elem_iff.mp hterm
  rcases List.mem_append.mp hmem with hs | hf
  · have hcont : SUCCESS_STATUSES.contains sv = true := List.elem_iff.mpr hs
    rw [hsucc] at hcont
    exact absurd hcont Bool.false_ne_true
  · exact hf

theorem runAttempts_trace_shape (env : ℕ → ℕ → RunResult) (tid : ℕ)
    (p T m : ℚ) (ma : ℕ) :
    ∀ d attempt b, ma + 1 - attempt ≤ d →
      ∃ k, k ≤ ma + 1 - attempt ∧
        (runAttempts env tid p T m ma attempt b).2 =
          (List.range' attempt k).map (Effect.createRun tid) := by
  intro d
  induction d with
  | zero =>
    intro attempt b hd
    have hg : ma < attempt := by omega
    rw [runAttempts, dif_pos hg]
    exact ⟨0, by omega, rfl⟩
  | succ d ih =>
    intro attempt b hd
    by_cases hg : ma < attempt
    · rw [runAttempts, dif_pos hg]
      exact ⟨0, by omega, rfl⟩
    · rw [runAttempts, dif_neg hg]
      have hle : attempt ≤ ma := by omega
      match hscan : scanFrom (env attempt) 0 (numPolls p T) with
      | none =>
        exact ⟨1, by omega, rfl⟩
      | some (sv, lastErr) =>
        dsimp only
        by_cases hsucc : SUCCESS_STATUSES.contains sv = true
        · rw [if_pos hsucc]
          exact ⟨1, by omega, rfl⟩
        · rw [if_neg hsucc]
          by_cases hretry : is_retryable_rate_limit lastErr = true ∧ attempt < ma
          · rw [dif_pos hretry]
            rcases ih (attempt + 1) (min m (b * (3 / 2))) (by omega) with ⟨k, hk, htr⟩
            refine ⟨k + 1, by omega, ?_⟩
            show Effect.createRun tid attempt ::
              (runAttempts env tid p T m ma (attempt + 1) (min m (b * (3 / 2)))).2 =
              (List.range' attempt (k + 1)).map (Effect.createRun tid)
            rw [htr, List.range'_succ, List.map_cons]
          · rw [dif_neg hretry]
            exact ⟨1, by omega, rfl⟩

theorem runAttempts_result_form (env : ℕ → ℕ → RunResult) (tid : ℕ)
    (p T m : ℚ) (ma : ℕ) :
    ∀ d attempt b, ma + 1 - attempt ≤ d → attempt ≤ ma →
      (∃ o, (runAttempts env tid p T m ma attempt b).1 = .outcome o) ∨
      (∃ a, (runAttempts env tid p T m ma attempt b).1 = .timeoutErr a) := by
  intro d
  induction d with
  | zero => intro attempt b hd hle; omega
  | succ d ih =>
    intro attempt b hd hle
    have hg : ¬ ma < attempt := by omega
    rw [runAttempts, dif_neg hg]
    match hscan : scanFrom (env attempt) 0 (numPolls p T) with
    | none => exact Or.inr ⟨attempt, rfl⟩
    | some (sv, lastErr) =>
      dsimp only
      by_cases hsucc : SUCCESS_STATUSES.contains sv = true
      · rw [if_pos hsucc]
        exact Or.inl ⟨_, rfl⟩
      · rw [if_neg hsucc]
        by_cases hretry : is_retryable_rate_limit lastErr = true ∧ attempt < ma
        · rw [dif_pos hretry]
          exact ih (attempt + 1) _ (by omega) (by omega)
        · rw [dif_neg hretry]
          exact Or.inl ⟨_, rfl⟩

theorem runAttempts_outcome_invariant (env : ℕ → ℕ → RunResult) (tid : ℕ)
    (p T m : ℚ) (ma : ℕ) :
    ∀ d attempt b o, ma + 1 - attempt ≤ d →
      (runAttempts env tid p T m ma attempt b).1 = .outcome o →
      (o.succeeded = true → o.status ∈ SUCCESS_STATUSES) ∧
      (o.succeeded = false → o.status ∈ TERMINAL_FAILURE_STATUSES) := by
  intro d
  induction d with
  | zero =>
    intro attempt b o hd hout
    have hg : ma < attempt := by omega
    rw [runAttempts, dif_pos hg] at hout
    exact ExecResult.noConfusion hout
  | succ d ih =>
    intro attempt b o hd hout
    by_cases hg : ma < attempt
    · rw [runAttempts, dif_pos hg] at hout
      exact ExecResult.noConfusion hout
    · rw [runAttempts, dif_neg hg] at hout
      revert hout
      match hscan : scanFrom (env attempt) 0 (numPolls p T) with
      | none =>
        intro hout
        exact ExecResult.noConfusion hout
      | some (sv, lastErr) =>
        dsimp only
        have hterm := scanFrom_terminal (env attempt) (numPolls p T) 0 sv lastErr hscan
        by_cases hsucc : SUCCESS_STATUSES.contains sv = true
        · rw [if_pos hsucc]
          intro hout
          dsimp only at hout
          injection hout with ho
          subst ho
          constructor
          · intro _
            exact List.elem_iff.mp hsucc
          · intro hff
            dsimp only at hff
            exact Bool.noConfusion hff
        · rw [if_neg hsucc]
          by_cases hretry : is_retryable_rate_limit lastErr = true ∧ attempt < ma
          · rw [dif_pos hretry]
            intro hout
            dsimp only at hout
            exact ih (attempt + 1) _ o (by omega) hout
          · rw [dif_neg hretry]
            intro hout
            dsimp only at hout
            injection hout with ho
            subst ho
            constructor
            · intro htt
              dsimp only at htt
              exact Bool.noConfusion htt
            · intro _
              exact terminal_not_success_mem_failure sv hterm
                (by rw [← Bool.not_eq_true]; exact hsucc)

theorem runAttempts_all_rate_limited (env : ℕ → ℕ → RunResult) (tid : ℕ)
    (p T m : ℚ) (ma : ℕ) :
    ∀ d attempt b, ma + 1 - attempt ≤ d → attempt ≤ ma →
      (∀ a, attempt ≤ a → a ≤ ma →
        ∃ sv e, scanFrom (env a) 0 (numPolls p T) = some (sv, e) ∧
          SUCCESS_STATUSES.contains sv = false ∧ is_retryable_rate_limit e = true) →
      ∃ sv e, runAttempts env tid p T m ma attempt b =
        (.outcome ⟨tid, ma, sv, e, false⟩,
         (List.range' attempt (ma + 1 - attempt)).map (Effect.createRun tid)) := by
  intro d
  induction d with
  | zero => intro attempt b hd hle hscan; omega
  | succ d ih =>
    intro attempt b hd hle hscan
    have hg : ¬ ma < attempt := by omega
    rcases hscan attempt le_rfl hle with ⟨sv, e, hsc, hsvsucc, hretr⟩
    rw [runAttempts, dif_neg hg, hsc]
    dsimp only
    rw [if_neg (by rw [hsvsucc]; exact Bool.false_ne_true)]
    by_cases hlast : attempt < ma
    · rw [dif_pos ⟨hretr, hlast⟩]
      rcases ih (attempt + 1) (min m (b * (3 / 2))) (by omega) (by omega)
        (fun a ha1 ha2 => hscan a (by omega) ha2) with ⟨sv', e', hrec⟩
      refine ⟨sv', e', ?_⟩
      show ((runAttempts env tid p T m ma (attempt + 1) (min m (b * (3 / 2)))).1,
        Effect.createRun tid attempt ::
          (runAttempts env tid p T m ma (attempt + 1) (min m (b * (3 / 2)))).2) = _
      rw [hrec]
      have h1 : ma + 1 - attempt = (ma + 1 - (attempt + 1)) + 1 := by omega
      rw [h1, List.range'_succ, List.map_cons]
    · have hma : attempt = ma := by omega
      rw [dif_neg (by intro hc; exact hlast hc.2)]
      refine ⟨sv, e, ?_⟩
      subst hma
      have h1 : attempt + 1 - attempt = 1 := by omega
      rw [h1]
      rfl

end DriverLemmas

section BackoffLemmas

theorem backoffSeq_nonneg (i p m : ℚ) (hi : 0 < i) (hm : 0 < m) :
    ∀ n, 0 ≤ backoffSeq i p m n := by
  intro n
  induction n with
  | zero =>
    rw [backoffSeq]
    exact le_max_of_le_left hi.le
  | succ n ih =>
    rw [backoffSeq]
    exact le_min hm.le (mul_nonneg ih (by norm_num))

theorem backoffSeq_le_self_mul (i p m : ℚ) (hi : 0 < i) (hm : 0 < m) (n : ℕ) :
    backoffSeq i p m n ≤ backoffSeq i p m n * (3 / 2) :=
  le_mul_of_one_le_right (backoffSeq_nonneg i p m hi hm n) (by norm_num)

end BackoffLemmas

section ClaimC3

/-- Claim C3, counterexample: with the positive parameters
`poll_interval = 1`, `initial_backoff = 100`, `max_backoff = 30`, the
`current_backoff` sequence of `verify_agent` is neither monotonically
non-decreasing nor bounded by `max_backoff`: it starts at
`max(100, 1*2) = 100 > 30` and drops to `min(30, 150) = 30` on the first
retry.  So the claim's monotonicity/boundedness assertion about the backoff
sequence is false as stated for arbitrary positive parameters. -/
theorem C3_counterexample :
    (0 : ℚ) < 1 ∧ (0 : ℚ) < 100 ∧ (0 : ℚ) < 30 ∧
    ¬ ((∀ n, backoffSeq 100 1 30 n ≤ backoffSeq 100 1 30 (n + 1)) ∧
       (∀ n, backoffSeq 100 1 30 n ≤ 30)) := by
  refine ⟨by norm_num, by norm_num, by norm_num, ?_⟩
  rintro ⟨hmono, hbound⟩
  have h0 : backoffSeq 100 1 30 0 = 100 := by
    rw [backoffSeq]
    norm_num
  have hb := hbound 0
  rw [h0] at hb
  norm_num at hb

/-- Claim C3 (amended): for positive `pollInterval`, `initialBackoff` and
`maxBackoff`, the backoff sequence starts at
`max(initialBackoff, pollInterval * 2)` and follows
`next = min(maxBackoff, prev * 1.5)`; the sleep performed on retry `n` is the
current backoff clamped to `maxBackoff`; the clamped sleep sequence is
monotonically non-decreasing and bounded by `maxBackoff`; and the raw
`current_backoff` sequence itself is monotonically non-decreasing and bounded
by `maxBackoff` provided its starting value does not already exceed
`maxBackoff` (the amendment forced by `C3_counterexample`). -/
theorem C3_backoff_amended (i p m : ℚ) (hp : 0 < p) (hi : 0 < i) (hm : 0 < m) :
    backoffSeq i p m 0 = max i (p * 2) ∧
    (∀ n, backoffSeq i p m (n + 1) = min m (backoffSeq i p m n * (3 / 2))) ∧
    (∀ n, sleepSeq i p m n = min m (backoffSeq i p m n)) ∧
    (∀ n, sleepSeq i p m n ≤ sleepSeq i p m (n + 1)) ∧
    (∀ n, sleepSeq i p m n ≤ m) ∧
    (max i (p * 2) ≤ m →
      (∀ n, backoffSeq i p m n ≤ backoffSeq i p m (n + 1)) ∧
      (∀ n, backoffSeq i p m n ≤ m)) := by
  refine ⟨rfl, fun n => rfl, fun n => rfl, ?_, fun n => min_le_left _ _, ?_⟩
  · intro n
    show min m (backoffSeq i p m n) ≤ min m (backoffSeq i p m (n + 1))
    have h2 : backoffSeq i p m (n + 1) = min m (backoffSeq i p m n * (3 / 2)) := rfl
    rw [h2, ← min_assoc, min_self]
    exact min_le_min le_rfl (backoffSeq_le_self_mul i p m hi hm n)
  · intro hbase
    have hbound : ∀ n, backoffSeq i p m n ≤ m := by
      intro n
      cases n with
      | zero => exact hbase
      | succ n => exact min_le_left _ _
    refine ⟨?_, hbound⟩
    intro n
    rw [backoffSeq]
    exact le_min (hbound n) (backoffSeq_le_self_mul i p m hi hm n)

/-- Witness for `C3_backoff_amended` at the source defaults
`initial_backoff = 7`, `poll_interval = 2`, `max_backoff = 30`. -/
theorem C3_witness :
    backoffSeq 7 2 30 0 = max 7 (2 * 2) ∧
    (∀ n, backoffSeq 7 2 30 (n + 1) = min 30 (backoffSeq 7 2 30 n * (3 / 2))) ∧
    (∀ n, sleepSeq 7 2 30 n = min 30 (backoffSeq 7 2 30 n)) ∧
    (∀ n, sleepSeq 7 2 30 n ≤ sleepSeq 7 2 30 (n + 1)) ∧
    (∀ n, sleepSeq 7 2 30 n ≤ 30) ∧
    (max (7 : ℚ) (2 * 2) ≤ 30 →
      (∀ n, backoffSeq 7 2 30 n ≤ backoffSeq 7 2 30 (n + 1)) ∧
      (∀ n, backoffSeq 7 2 30 n ≤ 30)) :=
  C3_backoff_amended 7 2 30 (by norm_num) (by norm_num) (by norm_num)

end ClaimC3

section ClaimC4

/-- Claim C4 (confirmed): status normalization is idempotent — normalizing an
already-normalized token returns the same token, both at string level
(`normStr`) and including the `None` passthrough (`normalize_status`) — and
the qualified form `"RunStatus.FAILED"` normalizes identically to the bare
token `"failed"`, the function taking the substring after the last `.`,
lowercasing and trimming whitespace. -/
theorem C4_normalize_idempotent :
    (∀ s : String, normStr (normStr s) = normStr s) ∧
    (∀ s : Option String, normalize_status (normalize_status s) = normalize_status s) ∧
    normalize_status (some "RunStatus.FAILED") = some "failed" ∧
    normalize_status (some "failed") = some "failed" := by
  refine ⟨normStr_idem, ?_, by decide, by decide⟩
  intro s
  cases s with
  | none => rfl
  | some s => exact congrArg some (normStr_idem s)

end ClaimC4

section ClaimC2

/-- Claim C2, counterexample: the claim reads "code or message contains the
marker `rate_limit` or the marker `rate limit`", but the code pairs each
field with one fixed marker (`"rate_limit" in code`, `"rate limit" in
message`).  A payload whose `code` is `"rate limit"` (space form) contains
the `"rate limit"` marker as a (case-insensitive) substring, yet the
classifier returns `false` for it. -/
theorem C2_counterexample :
    is_retryable_rate_limit (some (.dictE "rate limit" "")) = false ∧
    strContains (pyLowerS "rate limit") "rate limit" = true := by
  refine ⟨rfl, by decide⟩

/-- Claim C2 (amended): an absent error is not retryable; a dict payload is
retryable iff its code contains `"rate_limit"` or its message contains
`"rate limit"` as a substring after lowercasing (not the full cross product
of both fields with both markers); a non-empty non-dict payload is retryable
iff its string form contains `"rate limit"` after lowercasing; and the
claim's concrete examples hold: code `"Rate_Limit_Exceeded"` and message
`"Rate Limit hit"` are retryable, code `"invalid_request"` is not, and an
empty payload is not. -/
theorem C2_rate_limit_amended :
    is_retryable_rate_limit none = false ∧
    (∀ code message : String,
      (is_retryable_rate_limit (some (.dictE code message)) = true ↔
        ("rate_limit".data <:+: (pyLowerS code).data ∨
         "rate limit".data <:+: (pyLowerS message).data))) ∧
    (∀ s : String, s ≠ "" →
      (is_retryable_rate_limit (some (.strE s)) = true ↔
        "rate limit".data <:+: (pyLowerS s).data)) ∧
    is_retryable_rate_limit (some (.dictE "Rate_Limit_Exceeded" "")) = true ∧
    is_retryable_rate_limit (some (.dictE "" "Rate Limit hit")) = true ∧
    is_retryable_rate_limit (some (.dictE "invalid_request" "")) = false ∧
    is_retryable_rate_limit (some (.strE "")) = false := by
  refine ⟨rfl, ?_, ?_, by decide, by decide, by decide, rfl⟩
  · intro code message
    show (strContains (pyLowerS code) "rate_limit" ||
      strContains (pyLowerS message) "rate limit") = true ↔ _
    rw [Bool.or_eq_true, strContains, strContains, containsSub_iff, containsSub_iff]
  · intro s hs
    show (if s = "" then false
      else strContains (pyLowerS "") "rate_limit" || strContains (pyLowerS s) "rate limit")
        = true ↔ _
    rw [if_neg hs, Bool.or_eq_true, strContains, strContains, containsSub_iff, containsSub_iff]
    have h0 : ¬ ("rate_limit".data <:+: (pyLowerS "").data) := by
      intro h
      have : (pyLowerS "").data = [] := rfl
      rw [this, List.infix_nil] at h
      exact List.noConfusion h
    exact ⟨fun h => h.resolve_left h0, fun h => Or.inr h⟩

/-- Witness for `C2_rate_limit_amended`: a non-empty string payload
containing the rate-limit marker is classified retryable. -/
theorem C2_witness :
    is_retryable_rate_limit (some (.strE "Rate Limit hit")) = true :=
  (C2_rate_limit_amended.2.2.1 "Rate Limit hit" (by decide)).mpr
    ((containsSub_iff _ _).mp (by decide))

end ClaimC2

section ClaimC8

/-- Claim C8 (confirmed): the role-line filter returns the subsequence of
transcript lines matching an agent-role marker — containing
`"MessageRole.AGENT"` or starting, case-insensitively, with `"[assistant]"` —
and returns the full unfiltered transcript when that subsequence is empty.
The filtered list is a genuine subsequence (`List.Sublist`) of the input. -/
theorem C8_extract_agent_lines (ts : List String) :
    extract_agent_lines ts =
      (if ts.filter is_agent_line = [] then ts else ts.filter is_agent_line) ∧
    List.Sublist (ts.filter is_agent_line) ts ∧
    (∀ line : String, is_agent_line line =
      (strContains line "MessageRole.AGENT" ||
        pyStartsWith (pyLowerS line) "[assistant]")) ∧
    is_agent_line "[Assistant] High priority" = true ∧
    is_agent_line "x MessageRole.AGENT y" = true ∧
    is_agent_line "[user] hi" = false := by
  refine ⟨?_, List.filter_sublist ts, fun line => rfl, by decide, by decide, by decide⟩
  show (if (ts.filter is_agent_line).isEmpty then ts else ts.filter is_agent_line) = _
  by_cases h : ts.filter is_agent_line = []
  · rw [if_pos h, if_pos (by rw [h]; rfl)]
  · rw [if_neg h, if_neg (fun hemp => h (List.isEmpty_iff.mp hemp))]

end ClaimC8

section ClaimC9

/-- Claim C9 (confirmed): on the all-success path the harness result mapping
contains exactly the configured agent names, iterating in the configured
order `priority, team, effort, triage`; the agents are invoked sequentially
in that same order (second component: the invocation trace); and each entry
is that agent's filtered transcript. -/
theorem C9_harness_order (envVar : String → String)
    (transcriptFor : String → List String) :
    ((test_agents envVar transcriptFor).1.map Prod.fst =
      ["priority", "team", "effort", "triage"]) ∧
    ((test_agents envVar transcriptFor).2 =
      [envVar "PRIORITY_AGENT_ID", envVar "TEAM_AGENT_ID",
       envVar "EFFORT_AGENT_ID", envVar "TRIAGE_AGENT_ID"]) ∧
    ((test_agents envVar transcriptFor).1 =
      agent_env_map.map (fun pair =>
        (pair.1, extract_agent_lines (transcriptFor (envVar pair.2))))) :=
  ⟨rfl, rfl, rfl⟩

end ClaimC9

section EvalHelpers

theorem numPolls_one_one : numPolls 1 1 = 1 := by
  rw [numPolls]
  norm_num

end EvalHelpers

section ClaimC1

/-- Claim C1, counterexample: with `maxAttempts = 2` and both runs returning
`failed` with a rate-limit-classified error, `execute` does NOT raise
`RetriesExhausted`: the final attempt's rate-limited failure fails the
`attempt < max_attempts` retry test and is returned as a `succeeded = false`
outcome after exactly two run creations (lines 144 and 155-162 of
`verify_agent.py`). -/
theorem C1_counterexample :
    verify_agent
        (fun _ _ => ⟨some "failed", some (.dictE "rate_limit_exceeded" "")⟩) 1 1 2 1 30 =
      (.outcome ⟨0, 2, "failed", some (.dictE "rate_limit_exceeded" ""), false⟩,
       [.createThread 0, .createMessage 0, .createRun 0 1, .createRun 0 2]) ∧
    (verify_agent
        (fun _ _ => ⟨some "failed", some (.dictE "rate_limit_exceeded" "")⟩) 1 1 2 1 30).1 ≠
      .retriesExhausted ∧
    is_retryable_rate_limit (some (.dictE "rate_limit_exceeded" "")) = true := by
  have hscan : scanFrom
      (fun _ => (⟨some "failed", some (.dictE "rate_limit_exceeded" "")⟩ : RunResult)) 0 1 =
      some ("failed", some (.dictE "rate_limit_exceeded" "")) := rfl
  have h2 : runAttempts
      (fun _ _ => ⟨some "failed", some (.dictE "rate_limit_exceeded" "")⟩) 0 1 1 30 2 2
      (min 30 (2 * (3 / 2))) =
      (.outcome ⟨0, 2, "failed", some (.dictE "rate_limit_exceeded" ""), false⟩,
       [.createRun 0 2]) := by
    rw [runAttempts, dif_neg (by norm_num), numPolls_one_one]
    dsimp only
    rw [hscan]
    dsimp only
    rw [if_neg (by decide), dif_neg (fun hc => absurd hc.2 (by norm_num))]
  have h1 : runAttempts
      (fun _ _ => ⟨some "failed", some (.dictE "rate_limit_exceeded" "")⟩) 0 1 1 30 2 1 2 =
      (.outcome ⟨0, 2, "failed", some (.dictE "rate_limit_exceeded" ""), false⟩,
       [.createRun 0 1, .createRun 0 2]) := by
    rw [runAttempts, dif_neg (by norm_num), numPolls_one_one]
    dsimp only
    rw [hscan]
    dsimp only
    rw [if_neg (by decide), dif_pos ⟨by decide, by norm_num⟩]
    simp only [h2]
  have hfull : verify_agent
      (fun _ _ => ⟨some "failed", some (.dictE "rate_limit_exceeded" "")⟩) 1 1 2 1 30 =
      (.outcome ⟨0, 2, "failed", some (.dictE "rate_limit_exceeded" ""), false⟩,
       [.createThread 0, .createMessage 0, .createRun 0 1, .createRun 0 2]) := by
    show ((runAttempts
        (fun _ _ => ⟨some "failed", some (.dictE "rate_limit_exceeded" "")⟩) 0 1 1 30 2 1
        (max 1 (1 * 2))).1,
      Effect.createThread 0 :: Effect.createMessage 0 ::
        (runAttempts
          (fun _ _ => ⟨some "failed", some (.dictE "rate_limit_exceeded" "")⟩) 0 1 1 30 2 1
          (max 1 (1 * 2))).2) = _
    rw [show (max (1 : ℚ) (1 * 2)) = 2 by norm_num, h1]
  refine ⟨hfull, ?_, by decide⟩
  have hfst := congrArg Prod.fst hfull
  dsimp only at hfst
  rw [hfst]
  exact fun hc => ExecResult.noConfusion hc

/-- Claim C1 (amended): when every attempt from 1 to `maxAttempts ≥ 1`
observes a non-success terminal status whose error is rate-limit-classified,
`execute` performs exactly `maxAttempts` run creations and then returns a
`succeeded = false` RunOutcome for the final attempt — it does not raise
`RetriesExhausted` (the amendment forced by `C1_counterexample`; the
post-loop raise is reachable only when `maxAttempts < 1`). -/
theorem C1_rate_limited_amended (env : ℕ → ℕ → RunResult) (p T i m : ℚ)
    (ma : ℕ) (hma : 1 ≤ ma)
    (hscan : ∀ a, 1 ≤ a → a ≤ ma →
      ∃ sv e, scanFrom (env a) 0 (numPolls p T) = some (sv, e) ∧
        SUCCESS_STATUSES.contains sv = false ∧ is_retryable_rate_limit e = true) :
    ∃ sv e, verify_agent env p T ma i m =
      (.outcome ⟨0, ma, sv, e, false⟩,
       Effect.createThread 0 :: Effect.createMessage 0 ::
         (List.range' 1 ma).map (Effect.createRun 0)) := by
  rcases runAttempts_all_rate_limited env 0 p T m ma (ma + 1 - 1) 1 (max i (p * 2))
    le_rfl hma hscan with ⟨sv, e, heq⟩
  have h1 : ma + 1 - 1 = ma := by omega
  rw [h1] at heq
  refine ⟨sv, e, ?_⟩
  show ((runAttempts env 0 p T m ma 1 (max i (p * 2))).1,
    Effect.createThread 0 :: Effect.createMessage 0 ::
      (runAttempts env 0 p T m ma 1 (max i (p * 2))).2) = _
  rw [heq]

/-- Witness for `C1_rate_limited_amended`: both attempts of a
`maxAttempts = 2` call fail with a rate-limited error, and the call returns a
failed outcome for attempt 2 after two run creations. -/
theorem C1_witness :
    (1 : ℕ) ≤ 2 ∧
    ∃ sv e, verify_agent
        (fun _ _ => ⟨some "failed", some (.strE "rate limit exceeded")⟩) 1 1 2 1 30 =
      (.outcome ⟨0, 2, sv, e, false⟩,
       Effect.createThread 0 :: Effect.createMessage 0 ::
         (List.range' 1 2).map (Effect.createRun 0)) := by
  refine ⟨by norm_num, ?_⟩
  apply C1_rate_limited_amended
  · norm_num
  · intro a h1 h2
    refine ⟨"failed", some (.strE "rate limit exceeded"), ?_, by decide, by decide⟩
    rw [numPolls_one_one]
    exact rfl

end ClaimC1

section ClaimC5

theorem countP_map_createRun (t : ℕ) (l : List ℕ) :
    (l.map (Effect.createRun t)).countP Effect.isCreateRun = l.length := by
  have h1 : (l.map (Effect.createRun t)).countP Effect.isCreateRun =
      (l.map (Effect.createRun t)).length :=
    List.countP_eq_length.mpr (by
      intro e he
      rcases List.mem_map.mp he with ⟨x, _, rfl⟩
      rfl)
  rw [h1, List.length_map]

theorem countP_map_createRun_zero (q : Effect → Bool)
    (hq : ∀ t a, q (Effect.createRun t a) = false) (t : ℕ) (l : List ℕ) :
    (l.map (Effect.createRun t)).countP q = 0 :=
  List.countP_eq_zero.mpr (by
    intro e he
    rcases List.mem_map.mp he with ⟨x, _, rfl⟩
    rw [hq]
    exact Bool.false_ne_true)

/-- Claim C5 (confirmed): every `execute` call creates exactly one remote
thread and exactly one remote message, and creates at most `maxAttempts`
remote runs — one per attempt, consecutively numbered from attempt 1, each
against thread 0, the thread created at the start of the call.  The effect
alphabet (`Effect`), read off from the source's remote calls, contains no
delete operation, so no remote state is deleted. -/
theorem C5_effects (env : ℕ → ℕ → RunResult) (p T i m : ℚ) (ma : ℕ) :
    ∃ k, k ≤ ma ∧
      (verify_agent env p T ma i m).2 =
        Effect.createThread 0 :: Effect.createMessage 0 ::
          (List.range' 1 k).map (Effect.createRun 0) ∧
      (verify_agent env p T ma i m).2.countP Effect.isCreateThread = 1 ∧
      (verify_agent env p T ma i m).2.countP Effect.isCreateMessage = 1 ∧
      (verify_agent env p T ma i m).2.countP Effect.isCreateRun = k ∧
      (∀ t a, Effect.createRun t a ∈ (verify_agent env p T ma i m).2 → t = 0) := by
  rcases runAttempts_trace_shape env 0 p T m ma (ma + 1 - 1) 1 (max i (p * 2)) le_rfl
    with ⟨k, hk, htr⟩
  have htrace : (verify_agent env p T ma i m).2 =
      Effect.createThread 0 :: Effect.createMessage 0 ::
        (List.range' 1 k).map (Effect.createRun 0) := by
    show Effect.createThread 0 :: Effect.createMessage 0 ::
      (runAttempts env 0 p T m ma 1 (max i (p * 2))).2 = _
    rw [htr]
  refine ⟨k, by omega, htrace, ?_, ?_, ?_, ?_⟩
  · rw [htrace, List.countP_cons_of_pos _ _ rfl, List.countP_cons_of_neg _ _ (by decide),
      countP_map_createRun_zero Effect.isCreateThread (fun t a => rfl) 0]
  · rw [htrace, List.countP_cons_of_neg _ _ (by decide), List.countP_cons_of_pos _ _ rfl,
      countP_map_createRun_zero Effect.isCreateMessage (fun t a => rfl) 0]
  · rw [htrace, List.countP_cons_of_neg _ _ (by decide), List.countP_cons_of_neg _ _ (by decide),
      countP_map_createRun 0 (List.range' 1 k), List.length_range']
  · rw [htrace]
    intro t a hmem
    rcases List.mem_cons.mp hmem with h1 | hmem2
    · exact Effect.noConfusion h1
    rcases List.mem_cons.mp hmem2 with h2 | hmem3
    · exact Effect.noConfusion h2
    rcases List.mem_map.mp hmem3 with ⟨x, _, hx⟩
    injection hx with ht _
    exact ht.symm

end ClaimC5

section ClaimC6

/-- Claim C6 (confirmed): whenever the attempt loop reaches an attempt
`a ≤ maxAttempts` none of whose polls observes a terminal status before that
attempt's deadline, `execute` raises `Timeout` immediately, creating no
further runs beyond that attempt's (the trace from this point is exactly one
run creation).  Absent statuses are never terminal (second conjunct), so
polling continues on them until the deadline fires; and for positive
`pollInterval` the polls before the deadline are exactly those with
`k * pollInterval < timeout`, i.e. `k < numPolls` (third conjunct, the
logical-clock reading of `deadline = now + timeout`). -/
theorem C6_timeout (env : ℕ → ℕ → RunResult) (tid : ℕ) (p T m b : ℚ)
    (ma attempt : ℕ) (hle : attempt ≤ ma)
    (hpoll : ∀ k, k < numPolls p T → isTerminalPoll (env attempt k) = false) :
    runAttempts env tid p T m ma attempt b =
      (.timeoutErr attempt, [.createRun tid attempt]) ∧
    (∀ e, isTerminalPoll ⟨none, e⟩ = false) ∧
    (∀ k : ℕ, 0 < p → ((k : ℚ) * p < T ↔ k < numPolls p T)) := by
  refine ⟨?_, fun e => rfl, fun k hp => numPolls_spec p T hp k⟩
  have hg : ¬ ma < attempt := by omega
  rw [runAttempts, dif_neg hg,
    scanFrom_eq_none (env attempt) (numPolls p T) 0 (fun k hk1 hk2 => hpoll k (by omega))]

/-- Witness for `C6_timeout`: a run that stays `in_progress` forever times
out on attempt 1, with exactly one run created. -/
theorem C6_witness :
    (1 : ℕ) ≤ 1 ∧
    (∀ k, k < numPolls 1 5 →
      isTerminalPoll ((fun (_ _ : ℕ) => (⟨some "in_progress", none⟩ : RunResult)) 1 k) = false) ∧
    runAttempts (fun _ _ => ⟨some "in_progress", none⟩) 0 1 5 30 1 1 7 =
      (.timeoutErr 1, [.createRun 0 1]) :=
  ⟨le_rfl, fun k _ => rfl,
    (C6_timeout (fun _ _ => ⟨some "in_progress", none⟩) 0 1 5 30 7 1 1 le_rfl
      (fun k _ => rfl)).1⟩

end ClaimC6

section ClaimC7

/-- Claim C7 (confirmed): every RunOutcome returned by `execute` satisfies
the invariant: `succeeded = true` implies its status is in the success set
`{succeeded, completed}`, and `succeeded = false` implies its status is in
the terminal-failure set `{failed, canceled}`. -/
theorem C7_outcome_invariant (env : ℕ → ℕ → RunResult) (p T i m : ℚ)
    (ma : ℕ) (o : RunOutcome)
    (h : (verify_agent env p T ma i m).1 = .outcome o) :
    (o.succeeded = true → o.status ∈ SUCCESS_STATUSES) ∧
    (o.succeeded = false → o.status ∈ TERMINAL_FAILURE_STATUSES) := by
  have h2 : (runAttempts env 0 p T m ma 1 (max i (p * 2))).1 = .outcome o := h
  exact runAttempts_outcome_invariant env 0 p T m ma (ma + 1 - 1) 1 (max i (p * 2)) o
    le_rfl h2

/-- Witness for `C7_outcome_invariant`: a first poll returning `completed`
yields a succeeded outcome whose status is in the success set. -/
theorem C7_witness :
    (verify_agent (fun _ _ => ⟨some "completed", none⟩) 1 1 1 1 30).1 =
      .outcome ⟨0, 1, "completed", none, true⟩ ∧
    ((⟨0, 1, "completed", none, true⟩ : RunOutcome).succeeded = true →
      (⟨0, 1, "completed", none, true⟩ : RunOutcome).status ∈ SUCCESS_STATUSES) := by
  have hscan : scanFrom (fun _ => (⟨some "completed", none⟩ : RunResult)) 0 1 =
      some ("completed", none) := rfl
  have hout : (verify_agent (fun _ _ => ⟨some "completed", none⟩) 1 1 1 1 30).1 =
      .outcome ⟨0, 1, "completed", none, true⟩ := by
    show (runAttempts (fun _ _ => ⟨some "completed", none⟩) 0 1 1 30 1 1
      (max 1 (1 * 2))).1 = _
    rw [runAttempts, dif_neg (by norm_num), numPolls_one_one]
    dsimp only
    rw [hscan]
    dsimp only
    rw [if_pos (by decide)]
  exact ⟨hout,
    (C7_outcome_invariant (fun _ _ => ⟨some "completed", none⟩) 1 1 1 30 1
      ⟨0, 1, "completed", none, true⟩ hout).1⟩

end ClaimC7

section ClaimC10

/-- Claim C10 (confirmed): for every `maxAttempts ≥ 1` the post-loop raise of
the retries-exhausted error is unreachable — the retry branch requires
`attempt < maxAttempts`, so `execute` always ends in a RunOutcome or a
Timeout, never in `retriesExhausted` (first two conjuncts); and a
rate-limit-classified terminal failure observed on the final attempt
(`attempt = maxAttempts`) is returned as a `succeeded = false` RunOutcome
(third conjunct). -/
theorem C10_no_retries_exhausted (env : ℕ → ℕ → RunResult) (p T i m : ℚ)
    (ma : ℕ) (hma : 1 ≤ ma) :
    ((∃ o, (verify_agent env p T ma i m).1 = .outcome o) ∨
     (∃ a, (verify_agent env p T ma i m).1 = .timeoutErr a)) ∧
    (verify_agent env p T ma i m).1 ≠ .retriesExhausted ∧
    (∀ b sv e, scanFrom (env ma) 0 (numPolls p T) = some (sv, e) →
      SUCCESS_STATUSES.contains sv = false →
      is_retryable_rate_limit e = true →
      (runAttempts env 0 p T m ma ma b).1 = .outcome ⟨0, ma, sv, e, false⟩) := by
  have hform : (∃ o, (verify_agent env p T ma i m).1 = .outcome o) ∨
      (∃ a, (verify_agent env p T ma i m).1 = .timeoutErr a) :=
    runAttempts_result_form env 0 p T m ma (ma + 1 - 1) 1 (max i (p * 2)) le_rfl hma
  refine ⟨hform, ?_, ?_⟩
  · rcases hform with ⟨o, ho⟩ | ⟨a, ha⟩
    · rw [ho]
      exact fun hc => ExecResult.noConfusion hc
    · rw [ha]
      exact fun hc => ExecResult.noConfusion hc
  · intro b sv e hsc hsv hrl
    have hg : ¬ ma < ma := lt_irrefl ma
    rw [runAttempts, dif_neg hg, hsc]
    dsimp only
    rw [if_neg (by rw [hsv]; exact Bool.false_ne_true),
      dif_neg (fun hc => absurd hc.2 (lt_irrefl ma))]

/-- Witness for `C10_no_retries_exhausted` at `maxAttempts = 1` with a run
that completes on the first poll. -/
theorem C10_witness :
    (1 : ℕ) ≤ 1 ∧
    (((∃ o, (verify_agent (fun _ _ => ⟨some "completed", none⟩) 1 1 1 1 30).1 = .outcome o) ∨
      (∃ a, (verify_agent (fun _ _ => ⟨some "completed", none⟩) 1 1 1 1 30).1 = .timeoutErr a)) ∧
     (verify_agent (fun _ _ => ⟨some "completed", none⟩) 1 1 1 1 30).1 ≠ .retriesExhausted ∧
     (∀ b sv e, scanFrom ((fun (_ _ : ℕ) => (⟨some "completed", none⟩ : RunResult)) 1) 0
        (numPolls 1 1) = some (sv, e) →
      SUCCESS_STATUSES.contains sv = false →
      is_retryable_rate_limit e = true →
      (runAttempts (fun _ _ => ⟨some "completed", none⟩) 0 1 1 30 1 1 b).1 =
        .outcome ⟨0, 1, sv, e, false⟩)) :=
  ⟨le_rfl, C10_no_retries_exhausted (fun _ _ => ⟨some "completed", none⟩) 1 1 1 30 1 le_rfl⟩

end ClaimC10

end AzdAgent
